import Mathlib

/-!
Verification of the core logic of the ABX listening-test survey generator
(survey.py): the filename obfuscation cipher (caesar, encode_filename,
decode_filename) and the form partitioner inside main (mode selection,
padding, per-form slicing, dummy/comparison slot assignment, A/B side
assignment, and dummy waveform synthesis).

Modelling conventions:
  - Python strings are modelled as lists of code points (List Int, via ord).
  - Python ints are modelled as Int, list indices and lengths as Nat.
  - Floating point audio samples are modelled exactly over the rationals;
    the decimal literals 0.1 and 0.05 of the source become 1/10 and 1/20.
  - Randomness is passed in explicitly: the slot shuffle becomes a
    permutation parameter, random.choice becomes an index parameter,
    random.random() > 0.5 becomes a Bool parameter, np.random.rand becomes
    a list of draws (each in [0, 1)).
  - Python runtime failures relevant to the partitioner (AssertionError,
    ZeroDivisionError, IndexError) are modelled with Except String.
-/

deriving instance DecidableEq for Except

namespace Survey

/-- Code point is an ASCII uppercase letter: membership in the upper dict
of caesar (survey.py line 126, keys range(65, 91)). -/
def isUpperCode (o : ℤ) : Prop := 65 ≤ o ∧ o ≤ 90

/-- Code point is an ASCII lowercase letter: membership in the lower dict
of caesar (survey.py line 127, keys range(97, 123)). -/
def isLowerCode (o : ℤ) : Prop := 97 ≤ o ∧ o ≤ 122

/-- Code point is an ASCII digit: membership in the digit dict of caesar
(survey.py line 128, keys range(48, 58)). -/
def isDigitCode (o : ℤ) : Prop := 48 ≤ o ∧ o ≤ 57

instance (o : ℤ) : Decidable (isUpperCode o) := by
  unfold isUpperCode; infer_instance

instance (o : ℤ) : Decidable (isLowerCode o) := by
  unfold isLowerCode; infer_instance

instance (o : ℤ) : Decidable (isDigitCode o) := by
  unfold isDigitCode; infer_instance

/-- Code point is an ASCII letter or digit. -/
def isAlnumCode (o : ℤ) : Prop := isDigitCode o ∨ isUpperCode o ∨ isLowerCode o

instance (o : ℤ) : Decidable (isAlnumCode o) := by
  unfold isAlnumCode; infer_instance

/-- One character step of the Caesar cipher, survey.py lines 130-140.
Python operator precedence makes the expression o + k % 26 parse as
o + (k % 26), and Python % on ints agrees with Int emod here. -/
def caesarChar (k o : ℤ) : ℤ :=
  if (¬ isUpperCode o ∧ ¬ isLowerCode o) ∨ isDigitCode o then o
  else if isUpperCode o ∧ isUpperCode (o + k % 26) then o + k % 26
  else if isLowerCode o ∧ isLowerCode (o + k % 26) then o + k % 26
  else o + k % 26 - 26

/-- caesar(s, k) of survey.py lines 121-140, as a list transformation on
code points (the generator yields one output code point per input). -/
def caesar (s : List ℤ) (k : ℤ) : List ℤ := s.map (caesarChar k)

/-- CAESAR_SHIFT = 13, survey.py line 26. -/
def CAESAR_SHIFT : ℤ := 13

/-- Python filename.split(".") on code-point lists; 46 is the code of the
dot. Mirrors str.split with a one-character separator: the result is
always nonempty and contains the fragments between dots. -/
def splitOnDot : List ℤ → List (List ℤ)
  | [] => [[]]
  | c :: rest =>
      if c = 46 then [] :: splitOnDot rest
      else (c :: (splitOnDot rest).headD []) :: (splitOnDot rest).tail

/-- encode_filename, survey.py lines 143-154: split off the extension at
the final dot, join the remaining pieces, cipher with CAESAR_SHIFT, and
reattach the extension. -/
def encode_filename (filename : List ℤ) : List ℤ :=
  let parts := splitOnDot filename
  let ext := parts.getLastD []
  let name := parts.dropLast.flatten
  caesar name CAESAR_SHIFT ++ 46 :: ext

/-- decode_filename, survey.py lines 157-168: same as encode_filename but
with the negated shift. -/
def decode_filename (filename : List ℤ) : List ℤ :=
  let parts := splitOnDot filename
  let ext := parts.getLastD []
  let name := parts.dropLast.flatten
  caesar name (-CAESAR_SHIFT) ++ 46 :: ext

/-- ABX test mode, survey.py lines 321-328: abxTrue is the string value
true (reference vs proposed), abxPseudo the value pseudo (reference vs
proposed vs baseline). -/
inductive ABXMode where
  | abxTrue
  | abxPseudo
  deriving DecidableEq

/-- A question record of a form, survey.py lines 369-374 and 392-395: a
comparison slot stores reference and proposed (and baseline in pseudo
mode), a dummy slot stores reference and the synthesized dummy file. -/
inductive Question (α : Type) where
  | comparison (reference proposed : α) (baseline : Option α)
  | dummy (reference dummyFile : α)
  deriving DecidableEq

/-- Whether the question dict contains the key dummy (survey.py line 420). -/
def Question.isDummy {α : Type} : Question α → Bool
  | .dummy _ _ => true
  | .comparison _ _ _ => false

/-- Dictionary lookup form.questions.q.category, survey.py lines 437-439. -/
def questionGet {α : Type} (q : Question α) (cat : String) : Option α :=
  match q with
  | .comparison r p b =>
      if cat = "reference" then some r
      else if cat = "proposed" then some p
      else if cat = "baseline" then b
      else none
  | .dummy r d =>
      if cat = "reference" then some r
      else if cat = "dummy" then some d
      else none

/-- The random draws consumed by one form: perm is the shuffled
list(range(MAX_QUESTIONS)) of line 362-363, pick the random.choice draws
of line 380 (reduced modulo the list length to stay in range). -/
structure FormRandom where
  perm : List ℕ
  pick : ℕ → ℕ

/-- Mode selection with its length assertions, survey.py lines 321-328. -/
def selectMode (nRef nProp nBase : ℕ) : Except String ABXMode :=
  if nBase = 0 then
    if nRef = nProp then .ok .abxTrue else .error "AssertionError"
  else
    if nRef = nProp ∧ nProp = nBase then .ok .abxPseudo
    else .error "AssertionError"

/-- Number of forms, survey.py line 332: math.ceil of the true division
len(audio_reference) / n_audio, implemented as the exact integer ceiling
(negated floor division of the negated numerator, so that it is kernel
computable); the theorem nFormsOf_eq_ceil below shows it agrees with the
rational ceiling whenever n_audio is nonzero. -/
def nFormsOf (nRef : ℕ) (nAudio : ℤ) : ℤ := -((-(nRef : ℤ)).fdiv nAudio)

/-- Python slice lst.take semantics for lst[:k] with k possibly negative. -/
def pySliceTo {α : Type} (l : List α) (k : ℤ) : List α :=
  if 0 ≤ k then l.take k.toNat else l.take (l.length - (-k).toNat)

/-- Wraparound padding, survey.py lines 336-338:
audio.extend(audio[:n_pad]). -/
def padWrap {α : Type} (l : List α) (nPad : ℤ) : List α :=
  l ++ pySliceTo l nPad

/-- Per-form slice, survey.py lines 356-359:
audio[i * n_audio : (i + 1) * n_audio]. -/
def formSlice {α : Type} (l : List α) (nAudio i : ℕ) : List α :=
  (l.drop (i * nAudio)).take nAudio

/-- Comparison-slot assignment loop, survey.py lines 367-374. The length
guard models the IndexError Python raises at form_reference[j] (or
form_proposed[j], form_baseline[j]) when the sliced lists run short of
comparison_idx. -/
def buildComparisons {α : Type} (mode : ABXMode) (comparisonIdx : List ℕ)
    (formRef formProp formBase : List α) :
    Except String (List (ℕ × Question α)) :=
  match mode with
  | .abxTrue =>
      if comparisonIdx.length ≤ formRef.length ∧
          comparisonIdx.length ≤ formProp.length then
        .ok ((comparisonIdx.zip (formRef.zip formProp)).map
          (fun x => (x.1 + 1, Question.comparison x.2.1 x.2.2 none)))
      else .error "IndexError"
  | .abxPseudo =>
      if comparisonIdx.length ≤ formRef.length ∧
          comparisonIdx.length ≤ formProp.length ∧
          comparisonIdx.length ≤ formBase.length then
        .ok ((comparisonIdx.zip (formRef.zip (formProp.zip formBase))).map
          (fun x => (x.1 + 1, Question.comparison x.2.1 x.2.2.1 (some x.2.2.2))))
      else .error "IndexError"

/-- Dummy-slot assignment loop, survey.py lines 377-395: for each dummy
slot pick a reference of the form at random and pair it with the dummy
file derived from it (the reference to dummy filename substitution is the
abstract mkDummy). random.choice on an empty list raises IndexError. -/
def buildDummies {α : Type} [Inhabited α] (dummyIdx : List ℕ)
    (formRef : List α) (mkDummy : α → α) (pick : ℕ → ℕ) :
    Except String (List (ℕ × Question α)) :=
  if dummyIdx.length ≠ 0 ∧ formRef.length = 0 then .error "IndexError"
  else
    .ok (dummyIdx.enum.map (fun x =>
      let r := formRef.getD (pick x.1 % formRef.length) default
      (x.2 + 1, Question.dummy r (mkDummy r))))

/-- One form body, survey.py lines 361-395: shuffle the slot indices, the
first DUMMY_QUESTIONS shuffled indices become dummy slots and the rest
comparison slots; the questions dict receives the comparison entries
first, then the dummy entries. -/
def buildForm {α : Type} [Inhabited α] (mode : ABXMode) (dummyQ : ℕ)
    (formRef formProp formBase : List α) (mkDummy : α → α)
    (rnd : FormRandom) : Except String (List (ℕ × Question α)) :=
  match buildComparisons mode (rnd.perm.drop dummyQ) formRef formProp formBase with
  | .error e => .error e
  | .ok comps =>
      match buildDummies (rnd.perm.take dummyQ) formRef mkDummy rnd.pick with
      | .error e => .error e
      | .ok dums => .ok (comps ++ dums)

/-- Sequence the per-form results, stopping at the first failure, as the
Python loop of survey.py line 347 does. -/
def collectForms {β : Type} : List (Except String β) → Except String (List β)
  | [] => .ok []
  | .error e :: _ => .error e
  | .ok b :: rest =>
      match collectForms rest with
      | .error e => .error e
      | .ok bs => .ok (b :: bs)

/-- The partitioning pipeline of the create_new branch, survey.py lines
321-395: select the mode (with its assertions), compute n_audio and the
number of forms (math.ceil raising ZeroDivisionError when n_audio = 0),
pad the three lists, and build each form from its slices. -/
def createForms {α : Type} [Inhabited α] (refList propList baseList : List α)
    (maxQ dummyQ : ℕ) (mkDummy : α → α) (rnd : ℕ → FormRandom) :
    Except String (ABXMode × List (List (ℕ × Question α))) :=
  match selectMode refList.length propList.length baseList.length with
  | .error e => .error e
  | .ok mode =>
      let nAudio : ℤ := (maxQ : ℤ) - (dummyQ : ℤ)
      if nAudio = 0 then .error "ZeroDivisionError"
      else
        let nF : ℤ := nFormsOf refList.length nAudio
        let nPad : ℤ := nF * nAudio - (refList.length : ℤ)
        let nA : ℕ := nAudio.toNat
        match collectForms ((List.range nF.toNat).map (fun i =>
            buildForm mode dummyQ
              (formSlice (padWrap refList nPad) nA i)
              (formSlice (padWrap propList nPad) nA i)
              (formSlice (padWrap baseList nPad) nA i)
              mkDummy (rnd i))) with
        | .error e => .error e
        | .ok fs => .ok (mode, fs)

/-- The A and B category and file assignment of one rendered question,
survey.py lines 416-439: a fair coin decides the sides, the dummy branch
is checked first, then the mode; audio_x is always the reference entry. -/
structure ABView (α : Type) where
  categoryA : String
  categoryB : String
  audioA : Option α
  audioB : Option α
  audioX : Option α
  deriving DecidableEq

/-- Render-time side assignment, survey.py lines 416-439. -/
def renderAB {α : Type} (mode : ABXMode) (q : Question α) (coin : Bool) :
    ABView α :=
  let cab : String × String :=
    if q.isDummy then
      if coin then ("dummy", "reference") else ("reference", "dummy")
    else if mode = ABXMode.abxTrue then
      if coin then ("proposed", "reference") else ("reference", "proposed")
    else
      if coin then ("proposed", "baseline") else ("baseline", "proposed")
  ⟨cab.1, cab.2, questionGet q cab.1, questionGet q cab.2,
    questionGet q "reference"⟩

/-- The category whose side the coin decides: the challenger of the slot
(the dummy file on a dummy slot, otherwise the proposed file). -/
def challengerCat {α : Type} (q : Question α) : String :=
  if q.isDummy then "dummy" else "proposed"

/-- np.max over a nonempty list of samples (survey.py line 385); the
empty case is arbitrary since np.max raises there. -/
def npMax (l : List ℚ) : ℚ :=
  match l with
  | [] => 0
  | x :: xs => xs.foldl max x

/-- The noise of survey.py line 386:
np.random.rand(shape) * .1 * mag - .05 * mag, one draw per sample. -/
def mkNoise (ref rand : List ℚ) : List ℚ :=
  rand.map (fun r => r * (1 / 10) * npMax ref - (1 / 20) * npMax ref)

/-- np.clip of a sample to [lo, hi] (survey.py line 387). -/
def npClip (x lo hi : ℚ) : ℚ := min (max x lo) hi

/-- The written dummy waveform of survey.py lines 386-387:
np.clip(ref_wav + noise, -1, 1). -/
def mkDummyWav (ref rand : List ℚ) : List ℚ :=
  (ref.zip (mkNoise ref rand)).map (fun p => npClip (p.1 + p.2) (-1) 1)

/-- Peak magnitude in the sense of the specification text: the maximum
absolute sample value. The source instead uses npMax, the plain maximum. -/
def peakMag (l : List ℚ) : ℚ := npMax (l.map (fun x => |x|))

/-! Cipher lemmas -/

lemma caesarChar_neg13_eq : caesarChar (-CAESAR_SHIFT) = caesarChar CAESAR_SHIFT := by
  funext o
  have h1 : (-CAESAR_SHIFT) % 26 = 13 := by decide
  have h2 : CAESAR_SHIFT % 26 = 13 := by decide
  simp only [caesarChar, h1, h2]

lemma caesarChar13_invol (o : ℤ) (h : isAlnumCode o) :
    caesarChar CAESAR_SHIFT (caesarChar CAESAR_SHIFT o) = o := by
  have h13 : CAESAR_SHIFT % 26 = 13 := by decide
  rcases h with h | h | h <;>
  · simp only [isDigitCode, isUpperCode, isLowerCode] at h
    simp only [caesarChar, h13, isDigitCode, isUpperCode, isLowerCode]
    split_ifs <;> omega

lemma caesarChar13_alnum (o : ℤ) (h : isAlnumCode o) :
    isAlnumCode (caesarChar CAESAR_SHIFT o) := by
  have h13 : CAESAR_SHIFT % 26 = 13 := by decide
  rcases h with h | h | h <;>
  · simp only [isDigitCode, isUpperCode, isLowerCode] at h
    simp only [caesarChar, h13, isAlnumCode, isDigitCode, isUpperCode, isLowerCode]
    split_ifs <;> omega

lemma isAlnumCode_ne_dot {o : ℤ} (h : isAlnumCode o) : o ≠ 46 := by
  rcases h with h | h | h <;>
  · simp only [isDigitCode, isUpperCode, isLowerCode] at h
    omega

lemma caesar_neg13 (s : List ℤ) : caesar s (-CAESAR_SHIFT) = caesar s CAESAR_SHIFT := by
  unfold caesar
  rw [caesarChar_neg13_eq]

lemma caesar13_invol (s : List ℤ) (h : ∀ c ∈ s, isAlnumCode c) :
    caesar (caesar s CAESAR_SHIFT) CAESAR_SHIFT = s := by
  unfold caesar
  rw [List.map_map]
  conv_rhs => rw [← List.map_id s]
  apply List.map_congr_left
  intro a ha
  simpa using caesarChar13_invol a (h a ha)

lemma caesar13_alnum (s : List ℤ) (h : ∀ c ∈ s, isAlnumCode c) :
    ∀ c ∈ caesar s CAESAR_SHIFT, isAlnumCode c := by
  intro c hc
  unfold caesar at hc
  rcases List.mem_map.1 hc with ⟨a, ha, rfl⟩
  exact caesarChar13_alnum a (h a ha)

lemma splitOnDot_ne_nil (l : List ℤ) : splitOnDot l ≠ [] := by
  cases l with
  | nil => simp [splitOnDot]
  | cons c rest =>
      simp only [splitOnDot]
      split <;> simp

lemma splitOnDot_no_dot (l : List ℤ) (h : ∀ c ∈ l, c ≠ 46) : splitOnDot l = [l] := by
  induction l with
  | nil => rfl
  | cons c rest ih =>
      have hc : c ≠ 46 := h c (List.mem_cons_self c rest)
      have hr : splitOnDot rest = [rest] :=
        ih (fun x hx => h x (List.mem_cons_of_mem _ hx))
      simp [splitOnDot, hc, hr]

lemma splitOnDot_append (pre ext : List ℤ) (hext : (46 : ℤ) ∉ ext) :
    splitOnDot (pre ++ 46 :: ext) = splitOnDot pre ++ [ext] := by
  have hextAll : ∀ c ∈ ext, c ≠ (46 : ℤ) := fun c hc he => hext (he ▸ hc)
  induction pre with
  | nil => simp [splitOnDot, splitOnDot_no_dot ext hextAll]
  | cons c pre ih =>
      by_cases hc : c = 46
      · subst hc
        simp [splitOnDot, ih]
      · obtain ⟨p, ps, hps⟩ := List.exists_cons_of_ne_nil (splitOnDot_ne_nil pre)
        simp [splitOnDot, hc, ih, hps]

lemma flatten_splitOnDot (l : List ℤ) :
    (splitOnDot l).flatten = l.filter (fun c => c != 46) := by
  induction l with
  | nil => rfl
  | cons c rest ih =>
      obtain ⟨p, ps, hps⟩ := List.exists_cons_of_ne_nil (splitOnDot_ne_nil rest)
      by_cases hc : c = 46
      · subst hc
        simp [splitOnDot, ih]
      · have hbne : (c != 46) = true := by simpa using hc
        have h2 : p ++ ps.flatten = List.filter (fun c => c != 46) rest := by
          rw [hps] at ih
          simpa using ih
        simp [splitOnDot, hc, hps, List.filter_cons, hbne, h2]

lemma encode_decomp (pre ext : List ℤ) (hext : (46 : ℤ) ∉ ext) :
    encode_filename (pre ++ 46 :: ext) =
      caesar (pre.filter (fun c => c != 46)) CAESAR_SHIFT ++ 46 :: ext := by
  simp only [encode_filename, splitOnDot_append pre ext hext, List.dropLast_concat,
    flatten_splitOnDot, List.getLastD_concat]

lemma decode_decomp (pre ext : List ℤ) (hext : (46 : ℤ) ∉ ext) :
    decode_filename (pre ++ 46 :: ext) =
      caesar (pre.filter (fun c => c != 46)) (-CAESAR_SHIFT) ++ 46 :: ext := by
  simp only [decode_filename, splitOnDot_append pre ext hext, List.dropLast_concat,
    flatten_splitOnDot, List.getLastD_concat]

lemma filter_eq_self_of_alnum (s : List ℤ) (h : ∀ c ∈ s, isAlnumCode c) :
    s.filter (fun c => c != 46) = s := by
  apply List.filter_eq_self.2
  intro a ha
  simpa using isAlnumCode_ne_dot (h a ha)

/-! Claim theorems for the cipher -/

/-- C1: for every valid filename whose stem contains only ASCII letters and
digits and whose only dot is the final extension separator, decoding the
encoding (and encoding the decoding) gives the filename back. -/
theorem cipher_roundtrip (stem ext : List ℤ)
    (hstem : ∀ c ∈ stem, isAlnumCode c) (hext : (46 : ℤ) ∉ ext) :
    decode_filename (encode_filename (stem ++ 46 :: ext)) = stem ++ 46 :: ext ∧
    encode_filename (decode_filename (stem ++ 46 :: ext)) = stem ++ 46 :: ext := by
  have hax : ∀ c ∈ caesar stem CAESAR_SHIFT, isAlnumCode c := caesar13_alnum stem hstem
  have hstemF : stem.filter (fun c => c != 46) = stem := filter_eq_self_of_alnum stem hstem
  have haxF : (caesar stem CAESAR_SHIFT).filter (fun c => c != 46) =
      caesar stem CAESAR_SHIFT := filter_eq_self_of_alnum _ hax
  constructor
  · rw [encode_decomp stem ext hext, hstemF, decode_decomp _ ext hext, haxF,
      caesar_neg13, caesar13_invol stem hstem]
  · rw [decode_decomp stem ext hext, hstemF, caesar_neg13,
      encode_decomp _ ext hext, haxF, caesar13_invol stem hstem]

/-- Witness for C1 at the concrete filename ref01.wav (code points). -/
theorem cipher_roundtrip_witness :
    decode_filename (encode_filename ([114, 101, 102, 48, 49] ++ 46 :: [119, 97, 118])) =
      [114, 101, 102, 48, 49] ++ 46 :: [119, 97, 118] ∧
    encode_filename (decode_filename ([114, 101, 102, 48, 49] ++ 46 :: [119, 97, 118])) =
      [114, 101, 102, 48, 49] ++ 46 :: [119, 97, 118] :=
  cipher_roundtrip [114, 101, 102, 48, 49] [119, 97, 118] (by decide) (by decide)

/-- C9: on a filename whose stem contains internal dots, encode_filename
keeps only the text after the last dot as the extension, passed through
unmodified, and ciphers the remaining pieces joined with the interior dot
separators removed. -/
theorem encode_internal_dots (pre ext : List ℤ)
    (_hpre : (46 : ℤ) ∈ pre) (hext : (46 : ℤ) ∉ ext) :
    encode_filename (pre ++ 46 :: ext) =
      caesar (pre.filter (fun c => c != 46)) CAESAR_SHIFT ++ 46 :: ext :=
  encode_decomp pre ext hext

/-- Witness for C9 at the concrete filename a.b.wav (code points). -/
theorem encode_internal_dots_witness :
    encode_filename ([97, 46, 98] ++ 46 :: [119, 97, 118]) =
      caesar (([97, 46, 98] : List ℤ).filter (fun c => c != 46)) CAESAR_SHIFT ++
        46 :: [119, 97, 118] :=
  encode_internal_dots [97, 46, 98] [119, 97, 118] (by decide) (by decide)

/-- C10: encode_filename and decode_filename are extensionally equal,
because the Python expression -13 % 26 equals 13, so decoding applies the
same forward shift of 13 as encoding (ROT13). -/
theorem encode_filename_eq_decode_filename (filename : List ℤ) :
    encode_filename filename = decode_filename filename := by
  simp only [encode_filename, decode_filename, caesar_neg13]

/-! Noise and clipping lemmas -/

lemma le_foldl_max (xs : List ℚ) : ∀ init : ℚ, init ≤ xs.foldl max init := by
  induction xs with
  | nil => intro init; simp
  | cons x xs ih =>
      intro init
      simp only [List.foldl_cons]
      exact le_trans (le_max_left init x) (ih (max init x))

lemma mem_le_foldl_max (xs : List ℚ) : ∀ init : ℚ, ∀ a ∈ xs, a ≤ xs.foldl max init := by
  induction xs with
  | nil => simp
  | cons x xs ih =>
      intro init a ha
      simp only [List.foldl_cons]
      rcases List.mem_cons.1 ha with rfl | ha
      · exact le_trans (le_max_right init a) (le_foldl_max xs (max init a))
      · exact ih (max init x) a ha

lemma foldl_max_mem (xs : List ℚ) :
    ∀ init : ℚ, xs.foldl max init = init ∨ xs.foldl max init ∈ xs := by
  induction xs with
  | nil => intro init; left; rfl
  | cons x xs ih =>
      intro init
      simp only [List.foldl_cons]
      rcases ih (max init x) with h | h
      · rcases max_choice init x with hm | hm
        · left; rw [h, hm]
        · right; rw [h, hm]; exact List.mem_cons_self x xs
      · right; exact List.mem_cons_of_mem _ h

lemma le_npMax (l : List ℚ) (a : ℚ) (ha : a ∈ l) : a ≤ npMax l := by
  cases l with
  | nil => simp at ha
  | cons x xs =>
      unfold npMax
      rcases List.mem_cons.1 ha with rfl | ha
      · exact le_foldl_max xs a
      · exact mem_le_foldl_max xs x a ha

lemma npMax_mem (l : List ℚ) (h : l ≠ []) : npMax l ∈ l := by
  cases l with
  | nil => exact absurd rfl h
  | cons x xs =>
      show xs.foldl max x ∈ x :: xs
      rcases foldl_max_mem xs x with h1 | h1
      · rw [h1]; exact List.mem_cons_self x xs
      · exact List.mem_cons_of_mem _ h1

lemma npMax_le_peakMag (l : List ℚ) (h : l ≠ []) : npMax l ≤ peakMag l := by
  have hm := npMax_mem l h
  have habs : |npMax l| ∈ l.map (fun x => |x|) := List.mem_map_of_mem _ hm
  exact le_trans (le_abs_self _) (le_npMax _ _ habs)

/-! Claim theorems for the dummy audio -/

/-- C3 counterexample: take the reference waveform [-1] and the admissible
noise draw 0 (np.random.rand lies in [0, 1)). The source computes
mag = np.max(ref_wav) = -1, so the noise sample equals
0 * (1/10) * (-1) - (1/20) * (-1) = 1/20, while the peak magnitude (the
maximum absolute sample) is 1: the noise is not below the strict upper
bound 0.05 * peak of the claim. -/
theorem noise_range_cex :
    (∀ r ∈ ([0] : List ℚ), 0 ≤ r ∧ r < 1) ∧
    (1 / 20 : ℚ) ∈ mkNoise [-1] [0] ∧
    peakMag [-1] = 1 ∧
    ¬ ((1 / 20 : ℚ) < (1 / 20) * peakMag [-1]) := by
  refine ⟨by norm_num, ?_, ?_, ?_⟩
  · norm_num [mkNoise, npMax]
  · norm_num [peakMag, npMax]
  · norm_num [peakMag, npMax]

/-- C3 amended: when the maximum sample value m = np.max(ref_wav) of the
reference is positive, every noise sample lies in [-m/20, m/20), which is
contained in the claimed interval [-peak/20, peak/20) since m is at most
the peak magnitude. For references with nonpositive maximum sample the
original claim fails, as the counterexample shows. -/
theorem noise_range_amended (ref rand : List ℚ) (hmag : 0 < npMax ref)
    (hr : ∀ r ∈ rand, 0 ≤ r ∧ r < 1) :
    ∀ x ∈ mkNoise ref rand,
      (-(1 / 20) * npMax ref ≤ x ∧ x < (1 / 20) * npMax ref) ∧
      (-(1 / 20) * peakMag ref ≤ x ∧ x < (1 / 20) * peakMag ref) := by
  intro x hx
  unfold mkNoise at hx
  rcases List.mem_map.1 hx with ⟨r, hrm, rfl⟩
  obtain ⟨hr0, hr1⟩ := hr r hrm
  have hne : ref ≠ [] := by
    intro h
    rw [h] at hmag
    simp [npMax] at hmag
  have hpk : npMax ref ≤ peakMag ref := npMax_le_peakMag ref hne
  have h1 : -(1 / 20) * npMax ref ≤ r * (1 / 10) * npMax ref - (1 / 20) * npMax ref := by
    nlinarith
  have h2 : r * (1 / 10) * npMax ref - (1 / 20) * npMax ref < (1 / 20) * npMax ref := by
    nlinarith
  exact ⟨⟨h1, h2⟩, by linarith, by linarith⟩

/-- Witness for the amended C3 at the reference [1/2] and draw 1/2, whose
noise sample is 0. -/
theorem noise_range_amended_witness :
    (-(1 / 20) * npMax [(1 : ℚ) / 2] ≤ 0 ∧ (0 : ℚ) < (1 / 20) * npMax [(1 : ℚ) / 2]) ∧
    (-(1 / 20) * peakMag [(1 : ℚ) / 2] ≤ 0 ∧ (0 : ℚ) < (1 / 20) * peakMag [(1 : ℚ) / 2]) :=
  noise_range_amended [1 / 2] [1 / 2] (by norm_num [npMax]) (by norm_num) 0
    (by norm_num [mkNoise, npMax])

/-- C7: every sample of the written dummy waveform lies in [-1, 1], for
every reference waveform and every noise draw, by the final np.clip. -/
theorem dummy_clip_bounds (ref rand : List ℚ) :
    ∀ x ∈ mkDummyWav ref rand, -1 ≤ x ∧ x ≤ 1 := by
  intro x hx
  unfold mkDummyWav at hx
  rcases List.mem_map.1 hx with ⟨p, hp, rfl⟩
  unfold npClip
  constructor
  · exact le_min (le_max_right _ _) (by norm_num)
  · exact min_le_right _ _

/-- Witness for C7 at the reference [1/2] and draw [1/2], whose written
dummy sample is 1/2. -/
theorem dummy_clip_bounds_witness : -1 ≤ (1 / 2 : ℚ) ∧ (1 / 2 : ℚ) ≤ 1 :=
  dummy_clip_bounds [1 / 2] [1 / 2] (1 / 2)
    (by norm_num [mkDummyWav, mkNoise, npMax, npClip])

/-! Arithmetic lemmas for the number of forms and the padding -/

lemma nFormsOf_bounds (nRef : ℕ) (nAudio : ℤ) (hn : 0 < nAudio) :
    (nRef : ℤ) ≤ nFormsOf nRef nAudio * nAudio ∧
    (nFormsOf nRef nAudio - 1) * nAudio < nRef := by
  unfold nFormsOf
  rw [Int.fdiv_eq_ediv _ (le_of_lt hn)]
  have hmod := Int.ediv_add_emod (-(nRef : ℤ)) nAudio
  have hr0 : 0 ≤ (-(nRef : ℤ)) % nAudio := Int.emod_nonneg _ (ne_of_gt hn)
  have hr1 : (-(nRef : ℤ)) % nAudio < nAudio := Int.emod_lt_of_pos _ hn
  constructor
  · nlinarith [hmod]
  · nlinarith [hmod]

lemma nFormsOf_nonneg (nRef : ℕ) (nAudio : ℤ) (hn : 0 < nAudio) :
    0 ≤ nFormsOf nRef nAudio := by
  have h := (nFormsOf_bounds nRef nAudio hn).1
  have h0 : (0 : ℤ) ≤ (nRef : ℤ) := Int.natCast_nonneg nRef
  nlinarith

lemma nFormsOf_pos (nRef : ℕ) (nAudio : ℤ) (hn : 0 < nAudio) (hl : 0 < nRef) :
    0 < nFormsOf nRef nAudio := by
  have h := (nFormsOf_bounds nRef nAudio hn).1
  have h0 : (0 : ℤ) < (nRef : ℤ) := by exact_mod_cast hl
  nlinarith

lemma nFormsOf_zero (nAudio : ℤ) : nFormsOf 0 nAudio = 0 := by
  unfold nFormsOf
  simp

/-- The computable nFormsOf agrees with the rational ceiling of the true
division for every positive divisor (the case reachable by the loop). -/
lemma nFormsOf_eq_ceil (nRef : ℕ) (nAudio : ℤ) (hn : 0 < nAudio) :
    nFormsOf nRef nAudio = ⌈(nRef : ℚ) / (nAudio : ℚ)⌉ := by
  obtain ⟨hA, hB⟩ := nFormsOf_bounds nRef nAudio hn
  have hnq : (0 : ℚ) < (nAudio : ℚ) := by exact_mod_cast hn
  symm
  rw [Int.ceil_eq_iff]
  constructor
  · rw [lt_div_iff₀ hnq]
    exact_mod_cast hB
  · rw [div_le_iff₀ hnq]
    exact_mod_cast hA

lemma nFormsOf_nonpos_of_neg (nRef : ℕ) (nAudio : ℤ) (hn : nAudio < 0) :
    nFormsOf nRef nAudio ≤ 0 := by
  unfold nFormsOf
  rcases Nat.eq_zero_or_pos nRef with h | h
  · subst h
    simp
  · cases nAudio with
    | ofNat k => exact absurd hn (not_lt.2 (Int.natCast_nonneg k))
    | negSucc n =>
        obtain ⟨m, rfl⟩ : ∃ m, nRef = m + 1 := ⟨nRef - 1, by omega⟩
        have hns : -((m + 1 : ℕ) : ℤ) = Int.negSucc m := by
          rw [Int.negSucc_eq]
          push_cast
          ring
        rw [hns]
        have hfd : (Int.negSucc m).fdiv (Int.negSucc n) = ((m + 1) / (n + 1) : ℕ) := rfl
        rw [hfd]
        exact neg_nonpos.2 (Int.natCast_nonneg _)

lemma padWrap_length {α : Type} (l : List α) (nPad : ℤ) (h0 : 0 ≤ nPad)
    (hle : nPad.toNat ≤ l.length) :
    (padWrap l nPad).length = l.length + nPad.toNat := by
  unfold padWrap pySliceTo
  rw [if_pos h0]
  simp only [List.length_append, List.length_take]
  omega

/-! Claim theorems for the padding -/

/-- C4 counterexample: a single reference with five comparison slots per
form gives n_pad = 4, but the list has only one entry to wrap around, so
the extended list has 2 entries and the only form receives a slice of
length 2 instead of 5: not every form is exactly full. -/
theorem padding_cex :
    nFormsOf 1 5 = 1 ∧
    nFormsOf 1 5 * 5 - 1 = 4 ∧
    (formSlice (padWrap [7] (nFormsOf 1 5 * 5 - 1)) 5 0).length = 2 := by
  refine ⟨by decide, by decide, by decide⟩

/-- Shared slice facts about the padded lists, used both for the padding
claim and for the form count claim. -/
lemma padWrap_slice_facts {α : Type} (l : List α) (nAudio : ℕ) (nF nPad : ℤ)
    (hl : 0 < l.length) (hn : 0 < nAudio)
    (hF : nF = nFormsOf l.length nAudio)
    (hP : nPad = nF * nAudio - l.length)
    (hpad : nPad ≤ l.length) :
    0 ≤ nPad ∧ nPad < nAudio ∧
    ((padWrap l nPad).length : ℤ) = nF * nAudio ∧
    (∀ i : ℕ, (i : ℤ) < nF → (formSlice (padWrap l nPad) nAudio i).length = nAudio) ∧
    (∀ i : ℕ, (i : ℤ) < nF - 1 →
      formSlice (padWrap l nPad) nAudio i = formSlice l nAudio i) ∧
    formSlice (padWrap l nPad) nAudio (nF - 1).toNat =
      l.drop ((nF - 1).toNat * nAudio) ++ l.take nPad.toNat := by
  have hnZ : (0 : ℤ) < (nAudio : ℤ) := by exact_mod_cast hn
  obtain ⟨hA, hB⟩ := nFormsOf_bounds l.length nAudio hnZ
  rw [← hF] at hA hB
  have h0 : 0 ≤ nPad := by linarith
  have hlt : nPad < nAudio := by nlinarith
  have hpadN : nPad.toNat ≤ l.length := by omega
  have hlen : (padWrap l nPad).length = l.length + nPad.toNat :=
    padWrap_length l nPad h0 hpadN
  have hlenZ : ((padWrap l nPad).length : ℤ) = nF * nAudio := by
    rw [hlen]
    push_cast
    rw [Int.toNat_of_nonneg h0]
    linarith
  refine ⟨h0, hlt, hlenZ, ?_, ?_, ?_⟩
  · -- every slice of a form index below nF is exactly full
    intro i hi
    unfold formSlice
    rw [List.length_take, List.length_drop]
    have hi1 : ((i : ℤ) + 1) * nAudio ≤ nF * nAudio :=
      mul_le_mul_of_nonneg_right (by omega) (by linarith)
    have h2 : (i : ℤ) * nAudio + nAudio ≤ ((padWrap l nPad).length : ℤ) := by
      rw [hlenZ]
      nlinarith [hi1]
    have key : i * nAudio + nAudio ≤ (padWrap l nPad).length := by exact_mod_cast h2
    omega
  · -- slices of non-final forms touch only original entries
    intro i hi
    have hi1 : ((i : ℤ) + 1) * nAudio ≤ (nF - 1) * nAudio :=
      mul_le_mul_of_nonneg_right (by omega) (by linarith)
    have h2 : (i : ℤ) * nAudio + nAudio ≤ (l.length : ℤ) := by nlinarith [hi1, hB]
    have key : i * nAudio + nAudio ≤ l.length := by exact_mod_cast h2
    unfold formSlice padWrap
    rw [List.drop_append_of_le_length (by omega)]
    rw [List.take_append_of_le_length (by rw [List.length_drop]; omega)]
  · -- the final form is the remaining originals plus the duplicates
    have hFpos : 0 < nF := by
      rw [hF]
      exact nFormsOf_pos l.length nAudio hnZ hl
    have hj : ((nF - 1).toNat : ℤ) = nF - 1 := Int.toNat_of_nonneg (by omega)
    have hjlenZ : ((nF - 1).toNat : ℤ) * (nAudio : ℤ) < (l.length : ℤ) := by
      rw [hj]
      exact hB
    have hjlen : (nF - 1).toNat * nAudio ≤ l.length := by
      have : (((nF - 1).toNat * nAudio : ℕ) : ℤ) ≤ (l.length : ℤ) := by
        push_cast
        linarith [hjlenZ]
      exact_mod_cast this
    unfold formSlice padWrap pySliceTo
    rw [if_pos h0]
    rw [List.drop_append_of_le_length hjlen]
    apply List.take_of_length_le
    rw [List.length_append, List.length_drop, List.length_take]
    rw [min_eq_left hpadN]
    zify [hjlen]
    rw [hj, Int.toNat_of_nonneg h0]
    nlinarith [hA, hB]

/-- C4 amended: under the additional hypothesis n_pad at most
len(reference) (so that the wraparound has enough entries), the padded
list has length n_forms * n_audio, every form slice has exactly n_audio
entries, slices of all forms but the last consist of original entries
only, and the final form consists of the remaining originals followed by
the n_pad duplicated entries (with n_pad < n_audio). -/
theorem padding_final_form {α : Type} (l : List α) (nAudio : ℕ) (nF nPad : ℤ)
    (hl : 0 < l.length) (hn : 0 < nAudio)
    (hF : nF = nFormsOf l.length nAudio)
    (hP : nPad = nF * nAudio - l.length)
    (hpad : nPad ≤ l.length) :
    0 ≤ nPad ∧ nPad < nAudio ∧
    ((padWrap l nPad).length : ℤ) = nF * nAudio ∧
    (∀ i : ℕ, (i : ℤ) < nF → (formSlice (padWrap l nPad) nAudio i).length = nAudio) ∧
    (∀ i : ℕ, (i : ℤ) < nF - 1 →
      formSlice (padWrap l nPad) nAudio i = formSlice l nAudio i) ∧
    formSlice (padWrap l nPad) nAudio (nF - 1).toNat =
      l.drop ((nF - 1).toNat * nAudio) ++ l.take nPad.toNat :=
  padWrap_slice_facts l nAudio nF nPad hl hn hF hP hpad

/-- Witness for the amended C4 at three entries and two comparison slots
per form: two forms, one duplicated entry in the second. -/
theorem padding_final_form_witness :
    0 ≤ (1 : ℤ) ∧ (1 : ℤ) < 2 ∧
    ((padWrap [10, 11, 12] (1 : ℤ)).length : ℤ) = 2 * 2 ∧
    (∀ i : ℕ, (i : ℤ) < 2 → (formSlice (padWrap [10, 11, 12] (1 : ℤ)) 2 i).length = 2) ∧
    (∀ i : ℕ, (i : ℤ) < 2 - 1 →
      formSlice (padWrap [10, 11, 12] (1 : ℤ)) 2 i = formSlice [10, 11, 12] 2 i) ∧
    formSlice (padWrap [10, 11, 12] (1 : ℤ)) 2 ((2 : ℤ) - 1).toNat =
      List.drop (((2 : ℤ) - 1).toNat * 2) [10, 11, 12] ++ List.take (1 : ℤ).toNat [10, 11, 12] :=
  padding_final_form [10, 11, 12] 2 2 1 (by decide) (by decide) (by decide)
    (by decide) (by decide)

/-! Pipeline lemmas -/

lemma collectForms_ok_length {β : Type} (l : List (Except String β)) (bs : List β)
    (h : collectForms l = .ok bs) : bs.length = l.length := by
  induction l generalizing bs with
  | nil =>
      simp only [collectForms, Except.ok.injEq] at h
      subst h
      rfl
  | cons x rest ih =>
      cases x with
      | error e => simp [collectForms] at h
      | ok b =>
          simp only [collectForms] at h
          cases hrec : collectForms rest with
          | error e => rw [hrec] at h; simp at h
          | ok bs2 =>
              rw [hrec] at h
              simp only [Except.ok.injEq] at h
              subst h
              simp [ih bs2 hrec]

lemma collectForms_ok_mem {β : Type} (l : List (Except String β)) (bs : List β)
    (h : collectForms l = .ok bs) : ∀ b ∈ bs, Except.ok b ∈ l := by
  induction l generalizing bs with
  | nil =>
      simp only [collectForms, Except.ok.injEq] at h
      subst h
      simp
  | cons x rest ih =>
      cases x with
      | error e => simp [collectForms] at h
      | ok b =>
          simp only [collectForms] at h
          cases hrec : collectForms rest with
          | error e => rw [hrec] at h; simp at h
          | ok bs2 =>
              rw [hrec] at h
              simp only [Except.ok.injEq] at h
              subst h
              intro c hc
              rcases List.mem_cons.1 hc with rfl | hc
              · exact List.mem_cons_self _ _
              · exact List.mem_cons_of_mem _ (ih bs2 hrec c hc)

lemma collectForms_ok_of_all {β : Type} (l : List (Except String β))
    (h : ∀ x ∈ l, ∃ b, x = .ok b) :
    ∃ bs, collectForms l = .ok bs ∧ bs.length = l.length := by
  induction l with
  | nil => exact ⟨[], rfl, rfl⟩
  | cons x rest ih =>
      obtain ⟨b, rfl⟩ := h x (List.mem_cons_self _ _)
      obtain ⟨bs, hc, hl⟩ := ih (fun y hy => h y (List.mem_cons_of_mem _ hy))
      refine ⟨b :: bs, ?_, by simp [hl]⟩
      simp only [collectForms, hc]

lemma buildComparisons_ok_fst {α : Type} {mode : ABXMode} {cIdx : List ℕ}
    {formRef formProp formBase : List α} {comps : List (ℕ × Question α)}
    (h : buildComparisons mode cIdx formRef formProp formBase = .ok comps) :
    comps.map Prod.fst = cIdx.map (· + 1) ∧ ∀ q ∈ comps, q.2.isDummy = false := by
  cases mode with
  | abxTrue =>
      simp only [buildComparisons] at h
      split_ifs at h with hg
      · simp only [Except.ok.injEq] at h
        subst h
        have hlen : cIdx.length ≤ (formRef.zip formProp).length := by
          rw [List.length_zip]
          exact le_min hg.1 hg.2
        constructor
        · rw [List.map_map]
          have hco : (Prod.fst ∘ fun x : ℕ × α × α =>
              (x.1 + 1, Question.comparison x.2.1 x.2.2 none)) =
              ((· + 1) ∘ Prod.fst) := rfl
          rw [hco, ← List.map_map, List.map_fst_zip _ _ hlen]
        · intro q hq
          rcases List.mem_map.1 hq with ⟨x, hx, rfl⟩
          rfl
  | abxPseudo =>
      simp only [buildComparisons] at h
      split_ifs at h with hg
      · simp only [Except.ok.injEq] at h
        subst h
        have hlen : cIdx.length ≤ (formRef.zip (formProp.zip formBase)).length := by
          rw [List.length_zip, List.length_zip]
          exact le_min hg.1 (le_min hg.2.1 hg.2.2)
        constructor
        · rw [List.map_map]
          have hco : (Prod.fst ∘ fun x : ℕ × α × α × α =>
              (x.1 + 1, Question.comparison x.2.1 x.2.2.1 (some x.2.2.2))) =
              ((· + 1) ∘ Prod.fst) := rfl
          rw [hco, ← List.map_map, List.map_fst_zip _ _ hlen]
        · intro q hq
          rcases List.mem_map.1 hq with ⟨x, hx, rfl⟩
          rfl

lemma buildDummies_ok_fst {α : Type} [Inhabited α] {dummyIdx : List ℕ}
    {formRef : List α} {mkDummy : α → α} {pick : ℕ → ℕ}
    {dums : List (ℕ × Question α)}
    (h : buildDummies dummyIdx formRef mkDummy pick = .ok dums) :
    dums.map Prod.fst = dummyIdx.map (· + 1) ∧ ∀ q ∈ dums, q.2.isDummy = true := by
  simp only [buildDummies] at h
  split_ifs at h with hg
  · simp only [Except.ok.injEq] at h
    subst h
    constructor
    · rw [List.map_map]
      have hco : (Prod.fst ∘ fun x : ℕ × ℕ =>
          (x.2 + 1, Question.dummy (formRef.getD (pick x.1 % formRef.length) default)
            (mkDummy (formRef.getD (pick x.1 % formRef.length) default)))) =
          ((· + 1) ∘ Prod.snd) := rfl
      rw [hco, ← List.map_map, List.enum_map_snd]
    · intro q hq
      rcases List.mem_map.1 hq with ⟨x, hx, rfl⟩
      rfl

lemma buildForm_ok_slots {α : Type} [Inhabited α] {mode : ABXMode} {dummyQ : ℕ}
    {formRef formProp formBase : List α} {mkDummy : α → α} {rnd : FormRandom}
    {qs : List (ℕ × Question α)} (maxQ : ℕ)
    (hperm : rnd.perm.Perm (List.range maxQ))
    (hd : dummyQ ≤ maxQ)
    (h : buildForm mode dummyQ formRef formProp formBase mkDummy rnd = .ok qs) :
    ((qs.map Prod.fst).Perm (List.range' 1 maxQ) ∧ (qs.map Prod.fst).Nodup) ∧
    (qs.filter (fun q => q.2.isDummy)).length = dummyQ ∧
    (qs.filter (fun q => ! q.2.isDummy)).length = maxQ - dummyQ := by
  have hplen : rnd.perm.length = maxQ := by
    simpa using hperm.length_eq
  simp only [buildForm] at h
  cases hc : buildComparisons mode (rnd.perm.drop dummyQ) formRef formProp formBase with
  | error e => rw [hc] at h; simp at h
  | ok comps =>
      rw [hc] at h
      cases hdm : buildDummies (rnd.perm.take dummyQ) formRef mkDummy rnd.pick with
      | error e => rw [hdm] at h; simp at h
      | ok dums =>
          rw [hdm] at h
          simp only [Except.ok.injEq] at h
          subst h
          obtain ⟨hcf, hcd⟩ := buildComparisons_ok_fst hc
          obtain ⟨hdf, hdd⟩ := buildDummies_ok_fst hdm
          have hkeys : (comps ++ dums).map Prod.fst =
              (rnd.perm.drop dummyQ ++ rnd.perm.take dummyQ).map (· + 1) := by
            rw [List.map_append, hcf, hdf, List.map_append]
          have hpermKeys : ((comps ++ dums).map Prod.fst).Perm (List.range' 1 maxQ) := by
            rw [hkeys]
            have h1 : (rnd.perm.drop dummyQ ++ rnd.perm.take dummyQ).Perm
                (List.range maxQ) := by
              have hswap : (rnd.perm.drop dummyQ ++ rnd.perm.take dummyQ).Perm rnd.perm := by
                have hcomm :=
                  @List.perm_append_comm _ (rnd.perm.drop dummyQ) (rnd.perm.take dummyQ)
                rw [List.take_append_drop] at hcomm
                exact hcomm
              exact hswap.trans hperm
            have h2 : (List.range maxQ).map (· + 1) = List.range' 1 maxQ := by
              rw [List.range'_eq_map_range]
              exact List.map_congr_left (fun a _ => Nat.add_comm a 1)
            rw [← h2]
            exact h1.map (· + 1)
          refine ⟨⟨hpermKeys, hpermKeys.nodup_iff.2 (List.nodup_range' 1 maxQ)⟩, ?_, ?_⟩
          · rw [List.filter_append]
            have hce : comps.filter (fun q => q.2.isDummy) = [] :=
              List.filter_eq_nil_iff.2 (fun q hq => by simp [hcd q hq])
            have hde : dums.filter (fun q => q.2.isDummy) = dums :=
              List.filter_eq_self.2 (fun q hq => hdd q hq)
            rw [hce, hde]
            have : dums.length = (rnd.perm.take dummyQ).length := by
              have := congrArg List.length hdf
              simpa using this
            simp only [List.nil_append]
            rw [this, List.length_take, hplen]
            omega
          · rw [List.filter_append]
            have hce : comps.filter (fun q => ! q.2.isDummy) = comps :=
              List.filter_eq_self.2 (fun q hq => by simp [hcd q hq])
            have hde : dums.filter (fun q => ! q.2.isDummy) = [] :=
              List.filter_eq_nil_iff.2 (fun q hq => by simp [hdd q hq])
            rw [hce, hde]
            have : comps.length = (rnd.perm.drop dummyQ).length := by
              have := congrArg List.length hcf
              simpa using this
            simp only [List.append_nil]
            rw [this, List.length_drop, hplen]

lemma createForms_ok_forms {α : Type} [Inhabited α] {refList propList baseList : List α}
    {maxQ dummyQ : ℕ} {mkDummy : α → α} {rnd : ℕ → FormRandom} {mode : ABXMode}
    {forms : List (List (ℕ × Question α))}
    (h : createForms refList propList baseList maxQ dummyQ mkDummy rnd =
      .ok (mode, forms)) :
    ∀ qs ∈ forms, ∃ i fr fp fb,
      buildForm mode dummyQ fr fp fb mkDummy (rnd i) = .ok qs := by
  simp only [createForms] at h
  split at h
  · exact absurd h (by simp)
  · split at h
    · exact absurd h (by simp)
    · split at h
      · exact absurd h (by simp)
      · next fs heq2 =>
          simp only [Except.ok.injEq, Prod.mk.injEq] at h
          obtain ⟨hm, hf⟩ := h
          subst hm
          subst hf
          intro qs hqs
          have hmem := collectForms_ok_mem _ _ heq2 qs hqs
          obtain ⟨i, hi, hfi⟩ := List.mem_map.1 hmem
          exact ⟨i, _, _, _, hfi⟩

lemma buildComparisons_ok_of {α : Type} (mode : ABXMode) (cIdx : List ℕ)
    (formRef formProp formBase : List α)
    (h1 : cIdx.length ≤ formRef.length) (h2 : cIdx.length ≤ formProp.length)
    (h3 : mode = ABXMode.abxPseudo → cIdx.length ≤ formBase.length) :
    ∃ comps, buildComparisons mode cIdx formRef formProp formBase = .ok comps := by
  cases mode with
  | abxTrue =>
      exact ⟨(cIdx.zip (formRef.zip formProp)).map
        (fun x => (x.1 + 1, Question.comparison x.2.1 x.2.2 none)),
        by simp [buildComparisons, h1, h2]⟩
  | abxPseudo =>
      exact ⟨(cIdx.zip (formRef.zip (formProp.zip formBase))).map
        (fun x => (x.1 + 1, Question.comparison x.2.1 x.2.2.1 (some x.2.2.2))),
        by simp [buildComparisons, h1, h2, h3 rfl]⟩

lemma buildDummies_ok_of {α : Type} [Inhabited α] (dummyIdx : List ℕ)
    (formRef : List α) (mkDummy : α → α) (pick : ℕ → ℕ)
    (h : formRef.length ≠ 0 ∨ dummyIdx.length = 0) :
    ∃ dums, buildDummies dummyIdx formRef mkDummy pick = .ok dums := by
  unfold buildDummies
  split_ifs with hg
  · rcases h with h | h
    · exact absurd hg.2 h
    · exact absurd h hg.1
  · exact ⟨_, rfl⟩

lemma buildForm_ok_of {α : Type} [Inhabited α] (mode : ABXMode) (dummyQ : ℕ)
    (formRef formProp formBase : List α) (mkDummy : α → α) (rnd : FormRandom)
    (h1 : (rnd.perm.drop dummyQ).length ≤ formRef.length)
    (h2 : (rnd.perm.drop dummyQ).length ≤ formProp.length)
    (h3 : mode = ABXMode.abxPseudo → (rnd.perm.drop dummyQ).length ≤ formBase.length)
    (h4 : formRef.length ≠ 0 ∨ (rnd.perm.take dummyQ).length = 0) :
    ∃ qs, buildForm mode dummyQ formRef formProp formBase mkDummy rnd = .ok qs := by
  obtain ⟨comps, hc⟩ := buildComparisons_ok_of mode _ formRef formProp formBase h1 h2 h3
  obtain ⟨dums, hdm⟩ := buildDummies_ok_of _ formRef mkDummy rnd.pick h4
  exact ⟨comps ++ dums, by simp [buildForm, hc, hdm]⟩

/-! Claim theorems for the slot partition -/

/-- C5: in every successfully generated form, the slot indices are exactly
the set 1..MAX_QUESTIONS (a permutation of it, hence without repetition),
with exactly DUMMY_QUESTIONS dummy slots and the remaining
MAX_QUESTIONS - DUMMY_QUESTIONS comparison slots. -/
theorem slot_partition_forms {α : Type} [Inhabited α]
    (refList propList baseList : List α) (maxQ dummyQ : ℕ)
    (mkDummy : α → α) (rnd : ℕ → FormRandom) (mode : ABXMode)
    (forms : List (List (ℕ × Question α)))
    (hperm : ∀ i, (rnd i).perm.Perm (List.range maxQ))
    (hd : dummyQ ≤ maxQ)
    (hok : createForms refList propList baseList maxQ dummyQ mkDummy rnd =
      Except.ok (mode, forms)) :
    ∀ qs ∈ forms,
      ((qs.map Prod.fst).Perm (List.range' 1 maxQ) ∧ (qs.map Prod.fst).Nodup) ∧
      (qs.filter (fun q => q.2.isDummy)).length = dummyQ ∧
      (qs.filter (fun q => ! q.2.isDummy)).length = maxQ - dummyQ := by
  intro qs hqs
  obtain ⟨i, fr, fp, fb, hfi⟩ := createForms_ok_forms hok qs hqs
  exact buildForm_ok_slots maxQ (hperm i) hd hfi

/-- Witness for C5 on a concrete run with two comparisons and one dummy
slot per form of three questions. -/
theorem slot_partition_forms_witness :
    ((([(1, Question.comparison 0 10 none), (2, Question.comparison 1 11 none),
        (3, Question.dummy 0 0)] : List (ℕ × Question ℕ)).map Prod.fst).Perm
          (List.range' 1 3) ∧
      (([(1, Question.comparison 0 10 none), (2, Question.comparison 1 11 none),
        (3, Question.dummy 0 0)] : List (ℕ × Question ℕ)).map Prod.fst).Nodup) ∧
    (([(1, Question.comparison 0 10 none), (2, Question.comparison 1 11 none),
        (3, Question.dummy 0 0)] : List (ℕ × Question ℕ)).filter
      (fun q => q.2.isDummy)).length = 1 ∧
    (([(1, Question.comparison 0 10 none), (2, Question.comparison 1 11 none),
        (3, Question.dummy 0 0)] : List (ℕ × Question ℕ)).filter
      (fun q => ! q.2.isDummy)).length = 3 - 1 :=
  slot_partition_forms [0, 1] [10, 11] [] 3 1 id (fun _ => ⟨[2, 0, 1], fun _ => 0⟩)
    ABXMode.abxTrue
    [[(1, Question.comparison 0 10 none), (2, Question.comparison 1 11 none),
      (3, Question.dummy 0 0)]]
    (fun _ => (by decide : ([2, 0, 1] : List ℕ).Perm (List.range 3))) (by decide) (by decide)
    [(1, Question.comparison 0 10 none), (2, Question.comparison 1 11 none),
      (3, Question.dummy 0 0)] (by decide)

/-! Claim theorems for the form count -/

/-- C6 counterexample: the preconditions hold (matched lengths, empty
baseline, 2 dummy slots below 10 question slots), but with a single
reference the padding need n_pad = 7 exceeds the one available entry, the
only form is under-filled, and the run fails with an IndexError instead
of producing ceil(1/8) = 1 forms. -/
theorem form_count_cex :
    createForms [0] [1] ([] : List ℕ) 10 2 id
      (fun _ => ⟨List.range 10, fun _ => 0⟩) = Except.error "IndexError" := by
  rfl

/-- C6 amended: under the additional hypothesis n_pad at most
len(reference), the pipeline succeeds and produces exactly
ceil(len(reference) / (max_questions - dummy_questions)) forms; in
particular empty audio lists produce zero forms rather than an error. -/
theorem form_count_amended {α : Type} [Inhabited α]
    (refList propList baseList : List α) (maxQ dummyQ : ℕ)
    (mkDummy : α → α) (rnd : ℕ → FormRandom)
    (hlen : propList.length = refList.length)
    (hbase : baseList.length = 0 ∨ baseList.length = refList.length)
    (hd : dummyQ < maxQ)
    (hperm : ∀ i, (rnd i).perm.Perm (List.range maxQ))
    (hpad : nFormsOf refList.length ((maxQ : ℤ) - (dummyQ : ℤ)) *
        ((maxQ : ℤ) - (dummyQ : ℤ)) - (refList.length : ℤ) ≤ (refList.length : ℤ)) :
    ∃ mode forms,
      createForms refList propList baseList maxQ dummyQ mkDummy rnd =
        Except.ok (mode, forms) ∧
      (forms.length : ℤ) = ⌈(refList.length : ℚ) / ((maxQ : ℚ) - (dummyQ : ℚ))⌉ ∧
      (refList = [] → forms = []) := by
  have hnApos : (0 : ℤ) < (maxQ : ℤ) - (dummyQ : ℤ) := by omega
  have hz : ((maxQ : ℤ) - (dummyQ : ℤ)) ≠ 0 := by omega
  have main : ∀ mode : ABXMode,
      selectMode refList.length propList.length baseList.length = .ok mode →
      (mode = ABXMode.abxPseudo → baseList.length = refList.length) →
      ∃ forms,
        createForms refList propList baseList maxQ dummyQ mkDummy rnd =
          Except.ok (mode, forms) ∧
        (forms.length : ℤ) = ⌈(refList.length : ℚ) / ((maxQ : ℚ) - (dummyQ : ℚ))⌉ ∧
        (refList = [] → forms = []) := by
    intro mode hsel hbase2
    have hall : ∀ x ∈ (List.range
        (nFormsOf refList.length ((maxQ : ℤ) - (dummyQ : ℤ))).toNat).map (fun i =>
          buildForm mode dummyQ
            (formSlice (padWrap refList
              (nFormsOf refList.length ((maxQ : ℤ) - (dummyQ : ℤ)) *
                ((maxQ : ℤ) - (dummyQ : ℤ)) - (refList.length : ℤ)))
              ((maxQ : ℤ) - (dummyQ : ℤ)).toNat i)
            (formSlice (padWrap propList
              (nFormsOf refList.length ((maxQ : ℤ) - (dummyQ : ℤ)) *
                ((maxQ : ℤ) - (dummyQ : ℤ)) - (refList.length : ℤ)))
              ((maxQ : ℤ) - (dummyQ : ℤ)).toNat i)
            (formSlice (padWrap baseList
              (nFormsOf refList.length ((maxQ : ℤ) - (dummyQ : ℤ)) *
                ((maxQ : ℤ) - (dummyQ : ℤ)) - (refList.length : ℤ)))
              ((maxQ : ℤ) - (dummyQ : ℤ)).toNat i)
            mkDummy (rnd i)), ∃ b, x = .ok b := by
      intro x hx
      obtain ⟨i, hi, rfl⟩ := List.mem_map.1 hx
      rw [List.mem_range] at hi
      rcases Nat.eq_zero_or_pos refList.length with h0 | h0
      · rw [h0, nFormsOf_zero] at hi
        simp at hi
      · have hN : ((maxQ : ℤ) - (dummyQ : ℤ)).toNat = maxQ - dummyQ := by omega
        have hcast : ((maxQ - dummyQ : ℕ) : ℤ) = (maxQ : ℤ) - (dummyQ : ℤ) := by omega
        have hnN : 0 < maxQ - dummyQ := by omega
        have hFnn : 0 ≤ nFormsOf refList.length ((maxQ : ℤ) - (dummyQ : ℤ)) :=
          nFormsOf_nonneg _ _ hnApos
        have hiZ : (i : ℤ) < nFormsOf refList.length ((maxQ : ℤ) - (dummyQ : ℤ)) := by
          omega
        obtain ⟨-, -, -, hsliceR, -, -⟩ :=
          padWrap_slice_facts refList (maxQ - dummyQ)
            (nFormsOf refList.length ((maxQ : ℤ) - (dummyQ : ℤ)))
            (nFormsOf refList.length ((maxQ : ℤ) - (dummyQ : ℤ)) *
              ((maxQ : ℤ) - (dummyQ : ℤ)) - (refList.length : ℤ))
            h0 hnN (by rw [hcast]) (by rw [hcast]) hpad
        obtain ⟨-, -, -, hsliceP, -, -⟩ :=
          padWrap_slice_facts propList (maxQ - dummyQ)
            (nFormsOf refList.length ((maxQ : ℤ) - (dummyQ : ℤ)))
            (nFormsOf refList.length ((maxQ : ℤ) - (dummyQ : ℤ)) *
              ((maxQ : ℤ) - (dummyQ : ℤ)) - (refList.length : ℤ))
            (by rw [hlen]; exact h0) hnN (by rw [hcast, hlen]) (by rw [hcast, hlen])
            (by rw [hlen]; exact hpad)
        have hpl : (rnd i).perm.length = maxQ := by simpa using (hperm i).length_eq
        rw [hN]
        apply buildForm_ok_of
        · rw [List.length_drop, hpl, hsliceR i hiZ]
        · rw [List.length_drop, hpl, hsliceP i hiZ]
        · intro hm
          obtain ⟨-, -, -, hsliceB, -, -⟩ :=
            padWrap_slice_facts baseList (maxQ - dummyQ)
              (nFormsOf refList.length ((maxQ : ℤ) - (dummyQ : ℤ)))
              (nFormsOf refList.length ((maxQ : ℤ) - (dummyQ : ℤ)) *
                ((maxQ : ℤ) - (dummyQ : ℤ)) - (refList.length : ℤ))
              (by rw [hbase2 hm]; exact h0) hnN (by rw [hcast, hbase2 hm])
              (by rw [hcast, hbase2 hm]) (by rw [hbase2 hm]; exact hpad)
          rw [List.length_drop, hpl, hsliceB i hiZ]
        · left
          rw [hsliceR i hiZ]
          omega
    obtain ⟨bs, hcol, hbslen⟩ := collectForms_ok_of_all _ hall
    refine ⟨bs, ?_, ?_, ?_⟩
    · simp only [createForms, hsel]
      rw [if_neg hz]
      simp only [hcol]
    · have hlen2 : bs.length =
          (nFormsOf refList.length ((maxQ : ℤ) - (dummyQ : ℤ))).toNat := by
        rw [hbslen]
        simp
      rw [hlen2]
      have hFnn : 0 ≤ nFormsOf refList.length ((maxQ : ℤ) - (dummyQ : ℤ)) :=
        nFormsOf_nonneg _ _ hnApos
      rw [Int.toNat_of_nonneg hFnn, nFormsOf_eq_ceil _ _ hnApos]
      congr 1
      push_cast
      ring
    · intro h0
      have hb0 : bs.length = 0 := by
        rw [hbslen]
        simp [h0, nFormsOf_zero]
      exact List.length_eq_zero.1 hb0
  by_cases hb : baseList.length = 0
  · exact ⟨ABXMode.abxTrue,
      main ABXMode.abxTrue (by simp [selectMode, hb, hlen]) (fun h => nomatch h)⟩
  · rcases hbase with h | h
    · exact absurd h hb
    · have hr : refList ≠ [] := by
        intro hnil
        apply hb
        rw [h, hnil]
        rfl
      exact ⟨ABXMode.abxPseudo,
        main ABXMode.abxPseudo (by simp [selectMode, hb, hlen, h, hr]) (fun _ => h)⟩

/-- Witness for the amended C6: three matched pairs, three question slots
with one dummy slot per form, giving two forms. -/
theorem form_count_amended_witness :
    ∃ mode forms,
      createForms [0, 1, 2] [10, 11, 12] ([] : List ℕ) 3 1 id
        (fun _ => ⟨[2, 0, 1], fun _ => 0⟩) = Except.ok (mode, forms) ∧
      (forms.length : ℤ) = ⌈(([0, 1, 2] : List ℕ).length : ℚ) / ((3 : ℚ) - (1 : ℚ))⌉ ∧
      (([0, 1, 2] : List ℕ) = [] → forms = []) :=
  form_count_amended [0, 1, 2] [10, 11, 12] [] 3 1 id
    (fun _ => ⟨[2, 0, 1], fun _ => 0⟩) (by decide) (by decide) (by decide)
    (fun _ => (by decide : ([2, 0, 1] : List ℕ).Perm (List.range 3))) (by decide)

/-! Claim theorems for mode selection and failure behaviour -/

/-- C8 counterexample: with dummy_questions = 5 above max_questions = 3
(an invalid slot configuration) and matched lists, the pipeline does not
fail: n_audio is -2, math.ceil gives zero forms, and the run silently
returns an empty survey. -/
theorem mode_selection_cex :
    createForms [5] [5] ([] : List ℕ) 3 5 id (fun _ => ⟨[], fun _ => 0⟩) =
      Except.ok (ABXMode.abxTrue, []) := by
  rfl

/-- C8 amended: an empty baseline with matched lengths selects mode true
and a non-empty length-matched baseline selects mode pseudo; any length
mismatch fails immediately with the assertion error and no partitioning;
dummy_questions equal to max_questions fails with a division error; but
dummy_questions above max_questions does not fail: it silently produces
zero forms. -/
theorem mode_selection_amended (refList propList baseList : List ℕ)
    (maxQ dummyQ : ℕ) (mkDummy : ℕ → ℕ) (rnd : ℕ → FormRandom) :
    (baseList.length = 0 → refList.length = propList.length →
      selectMode refList.length propList.length baseList.length =
        Except.ok ABXMode.abxTrue) ∧
    (baseList.length ≠ 0 → refList.length = propList.length →
      propList.length = baseList.length →
      selectMode refList.length propList.length baseList.length =
        Except.ok ABXMode.abxPseudo) ∧
    (baseList.length = 0 → refList.length ≠ propList.length →
      createForms refList propList baseList maxQ dummyQ mkDummy rnd =
        Except.error "AssertionError") ∧
    (baseList.length ≠ 0 → ¬(refList.length = propList.length ∧
        propList.length = baseList.length) →
      createForms refList propList baseList maxQ dummyQ mkDummy rnd =
        Except.error "AssertionError") ∧
    (dummyQ = maxQ → baseList.length = 0 → refList.length = propList.length →
      createForms refList propList baseList maxQ dummyQ mkDummy rnd =
        Except.error "ZeroDivisionError") ∧
    (maxQ < dummyQ → baseList.length = 0 → refList.length = propList.length →
      createForms refList propList baseList maxQ dummyQ mkDummy rnd =
        Except.ok (ABXMode.abxTrue, [])) := by
  refine ⟨?_, ?_, ?_, ?_, ?_, ?_⟩
  · intro hb hl
    simp [selectMode, hb, hl]
  · intro hb hl1 hl2
    simp [selectMode, hb, hl1, hl2]
  · intro hb hl
    have hsel : selectMode refList.length propList.length baseList.length =
        Except.error "AssertionError" := by
      unfold selectMode
      rw [if_pos hb, if_neg hl]
    simp [createForms, hsel]
  · intro hb hl
    have hsel : selectMode refList.length propList.length baseList.length =
        Except.error "AssertionError" := by
      unfold selectMode
      rw [if_neg hb, if_neg hl]
    simp [createForms, hsel]
  · intro hdm hb hl
    have hsel : selectMode refList.length propList.length baseList.length =
        Except.ok ABXMode.abxTrue := by
      simp [selectMode, hb, hl]
    simp only [createForms, hsel]
    rw [if_pos (show ((maxQ : ℤ) - (dummyQ : ℤ)) = 0 by omega)]
  · intro hlt hb hl
    have hsel : selectMode refList.length propList.length baseList.length =
        Except.ok ABXMode.abxTrue := by
      simp [selectMode, hb, hl]
    simp only [createForms, hsel]
    rw [if_neg (show ¬((maxQ : ℤ) - (dummyQ : ℤ) = 0) by omega)]
    have hnp : nFormsOf refList.length ((maxQ : ℤ) - (dummyQ : ℤ)) ≤ 0 :=
      nFormsOf_nonpos_of_neg _ _ (by omega)
    have ht : (nFormsOf refList.length ((maxQ : ℤ) - (dummyQ : ℤ))).toNat = 0 := by
      omega
    rw [ht]
    rfl

/-- Witness for the amended C8: a true-mode selection and an assertion
failure on mismatched lengths. -/
theorem mode_selection_amended_witness :
    selectMode ([0, 1] : List ℕ).length ([2, 3] : List ℕ).length
      ([] : List ℕ).length = Except.ok ABXMode.abxTrue ∧
    createForms ([0] : List ℕ) [] [] 3 1 id (fun _ => ⟨[], fun _ => 0⟩) =
      Except.error "AssertionError" :=
  ⟨(mode_selection_amended [0, 1] [2, 3] [] 4 1 id (fun _ => ⟨[], fun _ => 0⟩)).1
      (by decide) (by decide),
    (mode_selection_amended [0] [] [] 3 1 id (fun _ => ⟨[], fun _ => 0⟩)).2.2.1
      (by decide) (by decide)⟩

/-! Claim theorems for the A/B side assignment -/

/-- C2 counterexample: in a true-mode comparison slot with the coin toss
sending the challenger to side A, side B is the reference itself:
category_b is the string reference and audio_b is the same file as the
anchor audio_x, so the reference is not only the separately labelled
anchor. -/
theorem reference_on_side_cex :
    (renderAB ABXMode.abxTrue (Question.comparison (0 : ℕ) 1 none) true).categoryB =
      "reference" ∧
    (renderAB ABXMode.abxTrue (Question.comparison (0 : ℕ) 1 none) true).audioB =
      (renderAB ABXMode.abxTrue (Question.comparison (0 : ℕ) 1 none) true).audioX := by
  constructor <;> rfl

/-- C2 amended: the anchor audio_x is always the reference entry and the
coin decides which side the challenger category (dummy on dummy slots,
proposed otherwise) occupies; but the opposite side is the reference
itself in dummy slots and in true-mode comparison slots, and only
pseudo-mode comparison slots keep the reference off both sides. -/
theorem reference_anchor_amended {α : Type} (mode : ABXMode) (q : Question α)
    (coin : Bool) :
    (renderAB mode q coin).audioX = questionGet q "reference" ∧
    ((if coin then (renderAB mode q coin).categoryA
      else (renderAB mode q coin).categoryB) = challengerCat q) ∧
    (((renderAB mode q coin).categoryA ≠ "reference" ∧
      (renderAB mode q coin).categoryB ≠ "reference") ↔
      (q.isDummy = false ∧ mode = ABXMode.abxPseudo)) := by
  cases mode <;> cases q <;> cases coin <;>
    simp [renderAB, challengerCat, questionGet, Question.isDummy]

end Survey
